import Mathlib

/-!
Verification of the `translate-strings` tagged-template translation tool.

This file gives a shallow embedding of the tool's core algorithms
(`src/main.ts`, here `src/unnamed/part_001`, and `src/command-line.ts`)
as executable Lean functions, and proves or refutes the specified
properties of the scanner, canonicalizer, placeholder round-tripper and
the two catalog synchronization strategies.

Modelling conventions:
* JS strings are Lean `String`s (operations are spelled out over `List Char`
  where the JS code uses regexes, reproducing the regex engine's leftmost,
  lazy matching behaviour of the concrete patterns used by the tool).
* JS objects / `Map`s keyed by strings are association lists
  `List (String × α)` in insertion order; `jget`/`jset` reproduce property
  read and write (write keeps the position of an existing key, appends a
  fresh one).
* A persisted JSON catalog file is represented by its parsed association
  list; `none` stands for a missing file.  The tool rewrites a file iff its
  newly serialized content differs from what was read; since
  `JSON.stringify` with fixed formatting is injective on parsed documents,
  this is modelled as inequality of the association lists.
* The Azure translator (an external collaborator, spec §6) is an oracle
  `String → String → Option String`: `none` models a thrown provider error,
  `some s` the text returned for a (sentinel-protected) input.
-/

/-! ## Small JS helpers from main.ts -/

/-- The apostrophe character (written via its code point). -/
def squoteChar : Char := Char.ofNat 39

/-- One-character apostrophe string. -/
def squoteStr : String := String.mk [squoteChar]

/-- The backtick character (written via its code point). -/
def btickChar : Char := Char.ofNat 96

/-- Characters removed by JS `String.prototype.trim` (the ASCII subset; the
tool's keys are ASCII). -/
def jsWhitespaceChar (c : Char) : Bool :=
  c = ' ' || c = '\t' || c = '\n' || c = '\r' || c = Char.ofNat 11 || c = Char.ofNat 12

/-- JS `trim`. -/
def jsTrim (s : String) : String :=
  String.mk (((s.data.dropWhile jsWhitespaceChar).reverse.dropWhile jsWhitespaceChar).reverse)

/-- `unquote` from main.ts: removes backtick quotes from a string
(`text.substr(1, text.length - 2)` when it both starts and ends with a
backtick). -/
def unquote (text : String) : String :=
  if text.data.head? = some btickChar ∧ text.data.getLast? = some btickChar then
    String.mk ((text.data.drop 1).dropLast)
  else text

/-- Hex digit as produced by `JSON.stringify` unicode escapes. -/
def hexDigitChar (n : Nat) : Char :=
  if n < 10 then Char.ofNat (48 + n) else Char.ofNat (87 + n)

/-- Escaping of a single character as done by `JSON.stringify` on strings. -/
def jsonEscapeChar (c : Char) : List Char :=
  if c = '"' then ['\\', '"']
  else if c = '\\' then ['\\', '\\']
  else if c = '\n' then ['\\', 'n']
  else if c = '\r' then ['\\', 'r']
  else if c = '\t' then ['\\', 't']
  else if c = Char.ofNat 8 then ['\\', 'b']
  else if c = Char.ofNat 12 then ['\\', 'f']
  else if c.toNat < 32 then
    ['\\', 'u', '0', '0', hexDigitChar (c.toNat / 16), hexDigitChar (c.toNat % 16)]
  else [c]

/-- `JSON.stringify` on a string value. -/
def jsonStringify (s : String) : String :=
  String.mk ('"' :: (s.data.flatMap jsonEscapeChar ++ ['"']))

/-- `singleQuote` from main.ts: JSON-encode, escape apostrophes, and swap the
outer double quotes for single quotes. -/
def singleQuote (text : String) : String :=
  let body := ((jsonStringify text).data.drop 1).dropLast
  let body := body.flatMap (fun c => if c = squoteChar then ['\\', squoteChar] else [c])
  String.mk (squoteChar :: (body ++ [squoteChar]))

/-- JS property read on an object in insertion order: first binding wins. -/
def jget {α : Type} : List (String × α) → String → Option α
  | [], _ => none
  | p :: rest, k => if p.1 = k then some p.2 else jget rest k

/-- JS property write / `Map.set`: overwrite in place when the key exists,
append otherwise. -/
def jset {α : Type} (m : List (String × α)) (k : String) (v : α) : List (String × α) :=
  if (jget m k).isSome then m.map (fun p => if p.1 = k then (k, v) else p)
  else m ++ [(k, v)]

/-- The test `/[a-zA-Z]{2,}/.exec(key)` of main.ts: the string contains two
consecutive ASCII letters. -/
def hasWordAux : List Char → Bool
  | a :: b :: rest => (a.isAlpha && b.isAlpha) || hasWordAux (b :: rest)
  | _ => false

/-- `key` contains a run of at least two ASCII letters. -/
def hasWord (s : String) : Bool := hasWordAux s.data

/-- The replacement `/ [a-z]/g → upper` of main.ts (camel-casing step of the
document identifier derivation): each non-overlapping occurrence of a space
followed by an ASCII lowercase letter is replaced by the uppercased letter. -/
def camelAux : List Char → List Char
  | ' ' :: c :: rest =>
    if c.isLower then c.toUpper :: camelAux rest else ' ' :: camelAux (c :: rest)
  | c :: rest => c :: camelAux rest
  | [] => []

/-- Document-safe identifier derivation of `GenerateJSON`:
`key.trim().replace(/ [a-z]/g, upper).replace(/[^a-zA-Z$]/g, '')`. -/
def deriveName (key : String) : String :=
  String.mk ((camelAux (jsTrim key).data).filter (fun c => c.isAlpha || c = '$'))

/-! ## command-line.ts -/

/-- `onlyOne` from command-line.ts: `undefined` for zero values, the value for
exactly one, throw `errorMessage` for two or more.  A thrown `Error` is the
`Except.error` case. -/
def onlyOne {α : Type} (values : Option (List α)) (errorMessage : String) :
    Except String (Option α) :=
  match values with
  | none => .ok none
  | some [] => .ok none
  | some [v] => .ok (some v)
  | some _ => .error errorMessage

/-- `CommandLine.switch(name, errorMessage)`.  A switch's value list holds one
`Option String` per occurrence on the command line (`none` when the switch was
given without `=value`). -/
def switchValue (switches : List (String × List (Option String))) (name errorMessage : String) :
    Except String (Option (Option String)) :=
  onlyOne (jget switches name) errorMessage

/-- The `folder` getter of command-line.ts:
`resolve(onlyOne(this.inputs, 'multiple locations specified.') || fail('Must specify a project folder to work on.'))`.
Path resolution (Node's `resolve`) is modelled as the identity; the empty
string is falsy in JS, so a single empty input also fails. -/
def folder (inputs : List String) : Except String String :=
  match onlyOne (some inputs) "multiple locations specified." with
  | .error e => .error e
  | .ok none => .error "Must specify a project folder to work on."
  | .ok (some v) =>
    if v = "" then .error "Must specify a project folder to work on." else .ok v

/-! ## Placeholder round-tripper (`Translate` in main.ts)

`protect` models `text.replace(/(\$\{.*?\})/g, item => `77${i++}77`)` and
`restore` models `translation.replace(/77(.*?)77/g, (m, v) => placeholders[parseInt(v)])`.
Both regexes are reproduced with the JS engine's leftmost-match, lazy
quantifier semantics (`.` does not match a newline). -/

/-- Opening brace character. -/
def lbrace : Char := Char.ofNat 123

/-- Closing brace character. -/
def rbrace : Char := Char.ofNat 125

/-- Lazy search for the closing `}` of a `${...}` span: consume non-newline
characters until the first `}`; fail at a newline or the end of input. -/
def findClose : List Char → Option (List Char × List Char)
  | [] => none
  | c :: rest =>
    if c = rbrace then some ([], rest)
    else if c = '\n' then none
    else (findClose rest).map (fun p => (c :: p.1, p.2))

/-- Leftmost match of `/\$\{.*?\}/`: returns `(before, matchedSpan, after)`.
When `${` is seen but no closing `}` is reachable, the engine retries from the
next character, exactly as `RegExp.exec` does. -/
def findSpan : List Char → Option (List Char × List Char × List Char)
  | [] => none
  | c :: rest =>
    if c = '$' ∧ rest.head? = some lbrace then
      match findClose rest.tail with
      | some (inner, after) => some ([], c :: lbrace :: (inner ++ [rbrace]), after)
      | none => (findSpan rest).map (fun p => (c :: p.1, p.2.1, p.2.2))
    else (findSpan rest).map (fun p => (c :: p.1, p.2.1, p.2.2))

/-- Lazy search for the closing `77` of a sentinel: at each position first try
`77`, otherwise consume one non-newline character. -/
def findClose77 : List Char → Option (List Char × List Char)
  | [] => none
  | c :: rest =>
    if c = '7' ∧ rest.head? = some '7' then some ([], rest.tail)
    else if c = '\n' then none
    else (findClose77 rest).map (fun p => (c :: p.1, p.2))

/-- Leftmost match of `/77(.*?)77/`: returns `(before, group, after)`. -/
def findSent : List Char → Option (List Char × List Char × List Char)
  | [] => none
  | c :: rest =>
    if c = '7' ∧ rest.head? = some '7' then
      match findClose77 rest.tail with
      | some (g, after) => some ([], g, after)
      | none => (findSent rest).map (fun p => (c :: p.1, p.2.1, p.2.2))
    else (findSent rest).map (fun p => (c :: p.1, p.2.1, p.2.2))

/-- Value of a leading run of decimal digits, `none` when there is none. -/
def digitsVal (cs : List Char) : Option Nat :=
  let ds := cs.takeWhile Char.isDigit
  if ds = [] then none
  else some (ds.foldl (fun a c => a * 10 + (c.toNat - 48)) 0)

/-- `Number.parseInt` on the text captured by the sentinel group: skip
whitespace, optional sign, leading decimal digits; `none` models `NaN`. -/
def parseIntJS (cs : List Char) : Option Int :=
  match cs.dropWhile Char.isWhitespace with
  | '-' :: rest => (digitsVal rest).map (fun v => -(v : Int))
  | '+' :: rest => (digitsVal rest).map (fun v => (v : Int))
  | other => (digitsVal other).map (fun v => (v : Int))

/-- The sentinel inserted for the `i`-th span: `77` ++ decimal `i` ++ `77`. -/
def sentinelChars (i : Nat) : List Char :=
  '7' :: '7' :: ((Nat.repr i).data ++ ['7', '7'])

/-- Fuelled worker for `protect`; fuel bounds the number of matches (the text
length is always sufficient since every match consumes at least one
character). -/
def protF : Nat → List Char → Nat → List Char × List (List Char)
  | 0, cs, _ => (cs, [])
  | fuel + 1, cs, i =>
    match findSpan cs with
    | none => (cs, [])
    | some (b, s, a) =>
      let r := protF fuel a (i + 1)
      (b ++ sentinelChars i ++ r.1, s :: r.2)

/-- `protect`: replace each `${...}` span by its numbered sentinel and record
the original spans in order. -/
def protect (text : String) : String × List String :=
  let r := protF text.data.length text.data 0
  (String.mk r.1, r.2.map String.mk)

/-- The replacement callback of `restore`:
`placeholders[Number.parseInt(value)]`, where a `NaN` or out-of-range index
reads `undefined`, which JS coerces to the string `"undefined"`. -/
def repFor (phs : List (List Char)) (g : List Char) : List Char :=
  match parseIntJS g with
  | some n =>
    if n < 0 then "undefined".data
    else match phs.get? n.toNat with
      | some p => p
      | none => "undefined".data
  | none => "undefined".data

/-- Fuelled worker for `restore`. -/
def restF : Nat → List (List Char) → List Char → List Char
  | 0, _, cs => cs
  | fuel + 1, phs, cs =>
    match findSent cs with
    | none => cs
    | some (b, g, a) => b ++ repFor phs g ++ restF fuel phs a

/-- `restore`: replace every sentinel occurrence by the recorded span of the
parsed ordinal. -/
def restore (phs : List String) (text : String) : String :=
  String.mk (restF text.data.length (phs.map String.data) text.data)

/-- `Translate(text, language)` of `GenerateJSON`: protect, call the provider,
restore.  A provider error (oracle `none`) is caught and yields the empty
translation and comment, exactly like the `try`/`catch` in the source; an
empty provider response falls back to the input text (`|| text`). -/
def Translate (oracle : String → String → Option String) (text language : String) :
    String × String :=
  let pr := protect text
  match oracle pr.1 language with
  | none => ("", "")
  | some s =>
    let tr := if s = "" then text else s
    let tr := if pr.2.length > 0 then restore pr.2 tr else tr
    (tr, "Machine translated using Azure Translator via " ++ squoteStr ++
      "translate-strings" ++ squoteStr ++ " tool")

/-! ## Scanner (`ScanSources` in main.ts) -/

/-- `templateStringParameter` of main.ts. -/
structure TemplateParam where
  name : String
  type : String
  originalName : String
deriving DecidableEq, Repr

/-- `templateStringInfo` of main.ts (notes as an insertion-ordered map). -/
structure TemplateInfo where
  literal : String
  params : List TemplateParam
  notes : List (String × String)
  specifiedKey : String
deriving DecidableEq, Repr

/-- The expression substituted into a template span, as the scanner classifies
it: a bare identifier (with its declaration's resolved type text, `none` when
resolution fails, and its trailing comment) or a general expression (with its
source text and trailing comment).  Trailing comments are given already
stripped of comment delimiters, as produced by `getCommentForSub`. -/
inductive SpanContent where
  | ident (name : String) (declType : Option String) (comment : Option String)
  | expr (srcText : String) (comment : Option String)
deriving DecidableEq, Repr

/-- One `(expression, following-literal-chunk)` span of a template expression.
`tailText` is the raw token text of the chunk that follows the expression
(a `TemplateMiddle`/`TemplateTail` token, i.e. it starts with a brace and, for
the last one, ends with a backtick). -/
structure TemplateSpan where
  content : SpanContent
  tailText : String
deriving DecidableEq, Repr

/-- The per-span loop of `ScanSources` on a template expression: builds the
canonical `key` (head ++ ordinal ++ tail ...), the `literal` (head ++ chosen
parameter name ++ tail ...), the parameter list and the per-parameter notes.
`jsonMode` is `commandline.switches['json']` (identifiers are renamed to the
positional `p<n>`); `callType` is the type text of the whole call expression,
used as fallback type for non-identifier expressions. -/
def scanGo (jsonMode : Bool) (callType : String) :
    List TemplateSpan → Nat → String → String → List TemplateParam →
    List (String × String) →
    String × String × List TemplateParam × List (String × String)
  | [], _, key, lit, ps, notes => (key, lit, ps, notes)
  | sp :: rest, n, key, lit, ps, notes =>
    let key := key ++ Nat.repr n ++ sp.tailText
    match sp.content with
    | .ident nm dt c =>
      let name := if jsonMode then "p" ++ Nat.repr n else nm
      let ty := match dt with
        | some t => if t = "" then "any" else t
        | none => "any"
      let notes := match c with
        | some t => jset notes name t
        | none => notes
      scanGo jsonMode callType rest (n + 1) key (lit ++ name ++ sp.tailText)
        (ps ++ [⟨name, ty, ""⟩]) notes
    | .expr tx c =>
      let name := "p" ++ Nat.repr n
      let notes := match c with
        | some t => jset notes name t
        | none => notes
      scanGo jsonMode callType rest (n + 1) key (lit ++ name ++ sp.tailText)
        (ps ++ [⟨name, callType, tx⟩]) notes

/-- Processing of one template expression by `ScanSources`: `headText` is the
raw text of the template head token (starting with a backtick and ending in
a dollar-brace); a no-substitution template is the `spans = []` case, where
key and literal are the full literal text. -/
def scanTemplate (jsonMode : Bool) (callType : String) (headText : String)
    (spans : List TemplateSpan) (notes0 : List (String × String)) :
    String × String × List TemplateParam × List (String × String) :=
  scanGo jsonMode callType spans 0 headText headText [] notes0

/-- The canonical-key skeleton function: head text followed by, for each slot,
its decimal ordinal and the literal chunk after it. -/
def ckAux : Nat → List String → String
  | _, [] => ""
  | n, t :: ts => Nat.repr n ++ t ++ ckAux (n + 1) ts

/-- Canonical key as a pure function of the literal skeleton. -/
def canonKey (headText : String) (tails : List String) : String :=
  headText ++ ckAux 0 tails

/-- `track` of `ScanSources`: deduplicates on the unquoted canonical key;
a repeated key merges the new notes into the existing record via `Map.set`
(which overwrites an existing slot's note) and keeps the first occurrence's
literal, parameters and specified key. -/
def track (strings : List (String × TemplateInfo)) (key literal : String)
    (notes : List (String × String)) (params : List TemplateParam)
    (specifiedKey : String) : List (String × TemplateInfo) :=
  match jget strings (unquote key) with
  | some _ =>
    strings.map (fun p =>
      if p.1 = unquote key then
        (unquote key,
         { p.2 with notes := notes.foldl (fun m kv => jset m kv.1 kv.2) p.2.notes })
      else p)
  | none => strings ++ [(unquote key, ⟨literal, params, notes, specifiedKey⟩)]

/-! ### Trailing-comment annotations (note extractor) -/

/-- JS `\w` character class. -/
def wordChar (c : Char) : Bool := c.isAlphanum || c = '_'

/-- The split `note.split(/^(@\w+)/)` followed by the two uses of its pieces:
returns `(note to store under the slot "full" if any, explicit key if any)`.
When the trimmed note starts with an `@word` token, `full` is the empty
string (falsy) and the remainder is stored instead (`full || text`); otherwise
the whole note is stored when nonempty. -/
def noteSplit (note : String) : Option String × Option String :=
  match note.data with
  | c :: rest =>
    if c = '@' ∧ (rest.takeWhile wordChar) ≠ [] then
      let tok := String.mk ('@' :: rest.takeWhile wordChar)
      let text := String.mk (rest.dropWhile wordChar)
      ((if text ≠ "" then some text else none), some tok)
    else ((if note ≠ "" then some note else none), none)
  | [] => (none, none)

/-- Stripping of comment delimiters applied before the split:
`.replace(/^\/*\**/g, '').replace(/\**\/*$/g, '').trim()`. -/
def stripCommentDelims (s : String) : String :=
  let l := (s.data.dropWhile (fun c => c = '/')).dropWhile (fun c => c = '*')
  let l := ((l.reverse.dropWhile (fun c => c = '/')).dropWhile (fun c => c = '*')).reverse
  jsTrim (String.mk l)

/-- Processing of the trailing comments of a call site (lines 219–232 of
main.ts): later comments overwrite the `full` note and the specified key. -/
def applyComments (comments : List String) : List (String × String) × String :=
  comments.foldl (fun st c =>
    let r := noteSplit (stripCommentDelims c)
    (match r.1 with
      | some v => jset st.1 "full" v
      | none => st.1,
     match r.2 with
      | some k => k
      | none => st.2)) ([], "")

/-! ### Designated-function resolution (§4.5) -/

/-- A function declaration as seen by the resolution pass: its name and
whether one of its JSDoc comments contains the `@translator` marker. -/
structure FnModel where
  name : String
  marked : Bool
deriving DecidableEq, Repr

/-- A source file: an identifier and its function declarations. -/
structure FileModel where
  id : Nat
  fns : List FnModel
deriving DecidableEq, Repr

/-- The search for the designated translator function: the first marked
function of the first file containing one; `none` triggers the fallback. -/
def findTranslator (files : List FileModel) : Option (Nat × String) :=
  files.findSome? (fun f => (f.fns.find? (fun fn => fn.marked)).map (fun fn => (f.id, fn.name)))

/-- The scanner's warning (`WARNING: Unable to find the translator function`)
is printed exactly when resolution failed. -/
def scanWarns (files : List FileModel) : Bool := (findTranslator files).isNone

/-- The per-call-site test of `ScanSources` deciding whether a tagged template
is one of ours: the tag's declaration must be a function declaration whose
name is `iFn` and, when a translator file was found, that lives in it.  In the
fallback (`resolved = none`) `iFn` stays at its default `'i'` and the file
check is skipped. -/
def matchSite (resolved : Option (Nat × String)) (isFnDecl : Bool)
    (declName : Option String) (declFileId : Nat) : Bool :=
  match resolved with
  | some (fid, f) => isFnDecl && (declName == some f) && (declFileId == fid)
  | none => isFnDecl && (declName == some "i")

/-! ## Document-catalog strategy (`GenerateJSON` in main.ts)

The function reads the base document's raw text but discards its parsed
content (the `JSON.parse(orig)` call is commented out in the source, line
331), so the base mapping is rebuilt from the current scan on every run; only
the per-language documents are loaded and merged.  The per-key loop first
updates the base mapping and then, for every requested language whose
document lacks the derived identifier, runs the `Translate` round trip. -/

/-- JS truthiness of a property read: present and not the empty string. -/
def jsTruthyStr : Option String → Bool
  | some s => s ≠ ""
  | none => false

/-- One step of the base-document rebuild for one scanned string: skips keys
without a two-letter word, skips when the base already maps the derived name
to the same literal, warns (and keeps the first literal) on a duplicate name,
otherwise appends.  The second component collects the `(name, literal)` pairs
for which the language loop runs, in order. -/
def baseStep (st : List (String × String) × List (String × String))
    (kv : String × TemplateInfo) : List (String × String) × List (String × String) :=
  if hasWord kv.1 then
    let literal := unquote kv.2.literal
    let name := deriveName kv.1
    if jget st.1 name = some literal then st
    else
      let base := if (jget st.1 name).isSome then st.1 else st.1 ++ [(name, literal)]
      (base, st.2 ++ [(name, literal)])
  else st

/-- Rebuild of the base document from the scanned string table, together with
the processed `(name, literal)` sequence driving the language loops. -/
def baseProc (strings : List (String × TemplateInfo)) :
    List (String × String) × List (String × String) :=
  strings.foldl baseStep ([], [])

/-- The language-document update for one processed `(name, literal)` pair:
`if (!json[name]) { const [translated] = await Translate(literal, lang); if (translated) json[name] = translated; }`.
A failed translation adds nothing. -/
def langStep (oracle : String → String → Option String) (language : String)
    (j : List (String × String)) (p : String × String) : List (String × String) :=
  if jsTruthyStr (jget j p.1) then j
  else
    let t := (Translate oracle p.2 language).1
    if t ≠ "" then jset j p.1 t else j

/-- The whole run of the language loop over the processed pairs. -/
def langSync (oracle : String → String → Option String) (language : String)
    (proc : List (String × String)) (j0 : List (String × String)) :
    List (String × String) :=
  proc.foldl (langStep oracle language) j0

/-- The persisted state of the document-catalog strategy: the base document
and one document per requested language (`none` = file absent/unreadable). -/
structure JsonDisk where
  base : Option (List (String × String))
  langs : List (String × Option (List (String × String)))
deriving DecidableEq, Repr

/-- `GenerateJSON`: rebuild the base document, merge each language document,
and write each file iff its new serialized content differs from what was on
disk (`newContent !== orig`).  Returns the resulting disk state and the list
of write flags (base first, then one per language). -/
def GenerateJSON (oracle : String → String → Option String)
    (strings : List (String × TemplateInfo)) (d : JsonDisk) : JsonDisk × List Bool :=
  let bp := baseProc strings
  let newDisk : JsonDisk :=
    ⟨some bp.1,
     d.langs.map (fun p => (p.1, some (langSync oracle p.1 bp.2 (p.2.getD []))))⟩
  let writes :=
    decide (d.base ≠ some bp.1) ::
    d.langs.map (fun p => decide (p.2 ≠ some (langSync oracle p.1 bp.2 (p.2.getD []))))
  (newDisk, writes)

/-! ## Module-catalog strategy (`GenerateTS` in main.ts) -/

/-- `pp`: the rendered parameter declarations of an entry. -/
def tsParams (fn : TemplateInfo) : List String :=
  fn.params.map (fun p => p.name ++ ": " ++ p.type)

/-- `text.substr(1, text.length - 2)`: drop the first and last character. -/
def jsInner (s : String) : String := (s.drop 1).take (s.length - 2)

/-- The generated pending-translation comment. -/
def todoComment (text : String) : String :=
  "// todo: translate this string (" ++ text ++ ")"

/-- The generated machine-translated comment. -/
def autoCommentTS (text : String) : String :=
  "// autotranslated using Azure Translator via " ++ squoteStr ++ "translate-strings" ++
    squoteStr ++ " tool (" ++ text ++ ")"

/-- The property initializer source text generated for one entry. -/
def tsBody (pp : List String) (comment translation : String) : String :=
  "(" ++ String.intercalate "," pp ++ ") => \x7b\n              " ++ comment ++
    "\n              return " ++ translation ++ ";\n            \x7d"

/-- Generation of one missing module-catalog entry (lines 500–562 of main.ts):
the property name is the single-quoted canonical key; the translated text goes
through the same protect/translate/restore round trip as `Translate`, then is
requoted (backticks when parameterized, single quotes otherwise); a provider
error or absent client degrades to the untranslated text with a todo
comment. -/
def tsEntryFor (azure : Bool) (oracle : String → String → Option String)
    (language : String) (key : String) (fn : TemplateInfo) : String × String :=
  let name := singleQuote key
  let pp := tsParams fn
  let text := if pp.length = 0 then name else fn.literal
  let pr := protect text
  let tc : String × String :=
    if azure then
      match oracle pr.1 language with
      | some s =>
        let tr := if s = "" then text else s
        if pr.2.length > 0 then
          ("`" ++ jsInner (restore pr.2 tr) ++ "`", autoCommentTS text)
        else
          (singleQuote (jsInner tr), autoCommentTS text)
      | none => ("", "")
    else ("", "")
  let tc := if tc.1 = "" then (text, todoComment text) else tc
  (name, tsBody pp tc.2 tc.1)

/-- `GenerateTS` for one language module: the existing property assignments
are enumerated once, every canonical key whose single-quoted name is absent
gets a generated entry appended, and the file is saved iff at least one entry
was appended (`isModified`). -/
def GenerateTS (azure : Bool) (oracle : String → String → Option String)
    (language : String) (strings : List (String × TemplateInfo))
    (props : List (String × String)) : List (String × String) × Bool :=
  let adds := strings.filterMap (fun kv =>
    if (jget props (singleQuote kv.1)).isSome then none
    else some (tsEntryFor azure oracle language kv.1 kv.2))
  (props ++ adds, !adds.isEmpty)

/-! ## Association-list lemmas -/

theorem jget_append {α : Type} (l1 l2 : List (String × α)) (k : String) :
    jget (l1 ++ l2) k = match jget l1 k with
      | some v => some v
      | none => jget l2 k := by
  induction l1 with
  | nil => simp [jget]
  | cons p rest ih =>
    by_cases h : p.1 = k <;> simp [jget, h, ih]

theorem jget_append_left {α : Type} {l1 : List (String × α)} {k : String} {v : α}
    (l2 : List (String × α)) (h : jget l1 k = some v) :
    jget (l1 ++ l2) k = some v := by
  rw [jget_append, h]

theorem jget_append_right {α : Type} {l1 : List (String × α)} {k : String}
    (l2 : List (String × α)) (h : jget l1 k = none) :
    jget (l1 ++ l2) k = jget l2 k := by
  rw [jget_append, h]

theorem jget_map_overwrite {α : Type} {m : List (String × α)} {k : String} (v : α)
    (h : (jget m k).isSome) :
    jget (m.map (fun p => if p.1 = k then (k, v) else p)) k = some v := by
  induction m with
  | nil => simp [jget] at h
  | cons p rest ih =>
    by_cases hp : p.1 = k
    · simp [jget, hp]
    · simp only [jget, hp, if_neg, if_false] at h
      simpa [jget, hp] using ih h

theorem jget_map_overwrite_ne {α : Type} (m : List (String × α)) (k k' : String) (v : α)
    (h : k' ≠ k) :
    jget (m.map (fun p => if p.1 = k then (k, v) else p)) k' = jget m k' := by
  induction m with
  | nil => simp [jget]
  | cons p rest ih =>
    by_cases hp : p.1 = k
    · have hk : ¬ (k = k') := fun hh => h hh.symm
      simp [jget, hp, hk, ih]
    · by_cases hp' : p.1 = k' <;> simp [jget, hp, hp', h, ih]

theorem jget_jset_self {α : Type} (m : List (String × α)) (k : String) (v : α) :
    jget (jset m k v) k = some v := by
  unfold jset
  cases hm : jget m k with
  | some w =>
    have hs : (jget m k).isSome := by rw [hm]; rfl
    simp only [hm, Option.isSome_some, if_true]
    exact jget_map_overwrite v hs
  | none =>
    simp only [hm, Option.isSome_none, Bool.false_eq_true, if_false]
    rw [jget_append_right _ hm]
    simp [jget]

theorem jget_jset_ne {α : Type} (m : List (String × α)) (k k' : String) (v : α)
    (h : k' ≠ k) : jget (jset m k v) k' = jget m k' := by
  unfold jset
  cases hm : jget m k with
  | some w =>
    simp only [hm, Option.isSome_some, if_true]
    exact jget_map_overwrite_ne m k k' v h
  | none =>
    simp only [hm, Option.isSome_none, Bool.false_eq_true, if_false]
    rw [jget_append]
    cases hk : jget m k' with
    | some v' => rfl
    | none =>
      simp only [jget]
      rw [if_neg (fun hh => h hh.symm)]

/-! ## Claim C10: command-line arity behaviour -/

/-- C10: `CommandLine.switch(name, errorMessage)` returns `undefined` when the
switch was never supplied, its single value when supplied exactly once, and
throws an `Error` carrying `errorMessage` when supplied two or more times; the
`folder` getter throws when zero or when more than one positional input was
supplied. -/
theorem c10_switch_folder
    (sw : List (String × List (Option String))) (name msg : String)
    (inputs : List String) :
    (jget sw name = none → switchValue sw name msg = .ok none) ∧
    (∀ v, jget sw name = some [v] → switchValue sw name msg = .ok (some v)) ∧
    (∀ vs, jget sw name = some vs → 2 ≤ vs.length → switchValue sw name msg = .error msg) ∧
    (inputs = [] → folder inputs = .error "Must specify a project folder to work on.") ∧
    (2 ≤ inputs.length → folder inputs = .error "multiple locations specified.") := by
  refine ⟨?_, ?_, ?_, ?_, ?_⟩
  · intro h; simp [switchValue, h, onlyOne]
  · intro v h; simp [switchValue, h, onlyOne]
  · intro vs h hlen
    match vs, hlen with
    | a :: b :: rest, _ => simp [switchValue, h, onlyOne]
  · intro h; simp [folder, h, onlyOne]
  · intro hlen
    match inputs, hlen with
    | a :: b :: rest, _ => simp [folder, onlyOne]

/-- Witness for C10 at concrete inputs. -/
theorem c10_switch_folder_witness :
    switchValue [("key", [some "a", some "b"])] "key" "dup" = .error "dup" ∧
    switchValue [] "key" "dup" = .ok none ∧
    switchValue [("key", [some "a"])] "key" "dup" = .ok (some (some "a")) ∧
    folder [] = .error "Must specify a project folder to work on." ∧
    folder ["a", "b"] = .error "multiple locations specified." :=
  ⟨(c10_switch_folder [("key", [some "a", some "b"])] "key" "dup" []).2.2.1
      [some "a", some "b"] (by decide) (by decide),
   (c10_switch_folder [] "key" "dup" []).1 (by decide),
   (c10_switch_folder [("key", [some "a"])] "key" "dup" []).2.1 (some "a") (by decide),
   (c10_switch_folder [] "key" "dup" []).2.2.2.1 rfl,
   (c10_switch_folder [] "key" "dup" ["a", "b"]).2.2.2.2 (by decide)⟩

/-! ## Counterexamples for the corrected claims -/

/-- C1 counterexample: the base document of the document-catalog strategy is
rebuilt from the current scan on every run (main.ts line 331 discards the
parsed original), so when a source literal changes in a way that keeps the
derived identifier (here `Hello.` → `Hello!`, both deriving `Hello`), the
persisted entry's body is overwritten and the file rewritten — the merge does
not only add. -/
theorem c1_base_overwrite_cx :
    (GenerateJSON (fun _ _ => none) [("Hello!", ⟨"`Hello!`", [], [], ""⟩)]
      ⟨some [("Hello", "Hello.")], []⟩).1.base = some [("Hello", "Hello!")] ∧
    (GenerateJSON (fun _ _ => none) [("Hello!", ⟨"`Hello!`", [], [], ""⟩)]
      ⟨some [("Hello", "Hello.")], []⟩).2 = [true] ∧
    ("Hello!" : String) ≠ "Hello." := by decide

/-- C3 counterexample: for the literal `77${x}` (one substitution span),
protect yields `7777077` and restore's lazy sentinel regex matches `7777`
with an empty group, reading `placeholders[NaN] = undefined`; the round trip
returns `undefined077`, not the original text. -/
theorem c3_roundtrip_cx :
    (protect "77$\x7bx\x7d").2.length = 1 ∧
    restore (protect "77$\x7bx\x7d").2 (protect "77$\x7bx\x7d").1 = "undefined077" ∧
    ("undefined077" : String) ≠ "77$\x7bx\x7d" := by decide

/-- C5 counterexample: with no `@translator` function anywhere, the warning is
emitted but a tagged-template call site whose tag resolves to a function
declaration named `j` is still *not* treated as translatable — the fallback
keeps requiring the default tag name `i`. -/
theorem c5_fallback_cx :
    scanWarns [⟨0, [⟨"j", false⟩]⟩] = true ∧
    matchSite (findTranslator [⟨0, [⟨"j", false⟩]⟩]) true (some "j") 0 = false := by decide

/-- C6 counterexample: in the document-catalog strategy a provider failure for
key `Hello` and language `de` produces *no* entry in the `de` document
(`if (translated)` skips the assignment) — the entry is dropped, not written
as a pending-translation placeholder. -/
theorem c6_json_drop_cx :
    (GenerateJSON (fun _ _ => none) [("Hello", ⟨"`Hello`", [], [], ""⟩)]
      ⟨none, [("de", none)]⟩).1.base = some [("Hello", "Hello")] ∧
    (GenerateJSON (fun _ _ => none) [("Hello", ⟨"`Hello`", [], [], ""⟩)]
      ⟨none, [("de", none)]⟩).1.langs = [("de", some [])] := by decide

/-- C7 counterexample: a second occurrence of the same canonical key with a
note for the slot `full` *overwrites* the first occurrence's note (`Map.set`
semantics), contradicting the claimed earlier-note-wins union. -/
theorem c7_note_overwrite_cx :
    jget (track (track [] "k" "lit" [("full", "a")] [] "") "k" "lit2" [("full", "b")] [] "")
      "k" = some ⟨"lit", [], [("full", "b")], ""⟩ ∧
    ("b" : String) ≠ "a" := by decide

/-- C8 counterexample: a record carrying the explicit-key override `@foo`
still appears in the generated module catalog under the single-quoted
literal-derived canonical key; the override is never consulted. -/
theorem c8_override_unused_cx :
    (GenerateTS false (fun _ _ => none) "de" [("Hello", ⟨"`Hello`", [], [], "@foo"⟩)]
      []).1.map Prod.fst = [singleQuote "Hello"] ∧
    singleQuote "Hello" ≠ "@foo" ∧ singleQuote "Hello" ≠ singleQuote "@foo" := by decide

/-- C9 counterexample: for `` `Total: ${count}` `` (with `count` a resolvable
identifier of type `number`) under the document strategy, the derived
identifier is `Total$` (the `$` of the skeleton survives the
`[^a-zA-Z$]` strip and no camel-casing applies), not `TotalCount`, and the
base-document value is `Total: ${p0}` (the scanner renames identifier slots
to `p<n>` in json mode), not `Total: ${0}`. -/
theorem c9_identifier_cx :
    (baseProc (track []
        (scanTemplate true "string" "`Total: $\x7b"
          [⟨.ident "count" (some "number") none, "\x7d`"⟩] []).1
        (scanTemplate true "string" "`Total: $\x7b"
          [⟨.ident "count" (some "number") none, "\x7d`"⟩] []).2.1
        (scanTemplate true "string" "`Total: $\x7b"
          [⟨.ident "count" (some "number") none, "\x7d`"⟩] []).2.2.2
        (scanTemplate true "string" "`Total: $\x7b"
          [⟨.ident "count" (some "number") none, "\x7d`"⟩] []).2.2.1
        "")).1 = [("Total$", "Total: $\x7bp0\x7d")] ∧
    jget [(("Total$" : String), ("Total: $\x7bp0\x7d" : String))] "TotalCount" = none ∧
    ("Total$" : String) ≠ "TotalCount" ∧
    ("Total: $\x7bp0\x7d" : String) ≠ "Total: $\x7b0\x7d" := by decide

/-! ## Idempotence machinery -/

theorem jget_isSome_of_mem {α : Type} {l : List (String × α)} {k : String} {v : α}
    (h : (k, v) ∈ l) : (jget l k).isSome := by
  induction l with
  | nil => cases h
  | cons p rest ih =>
    rcases List.mem_cons.mp h with heq | hmem
    · simp [jget, ← heq]
    · by_cases hp : p.1 = k <;> simp [jget, hp, ih hmem]

theorem langStep_truthy_mono (o : String → String → Option String) (lang : String)
    (j : List (String × String)) (p : String × String) (n : String)
    (h : jsTruthyStr (jget j n) = true) :
    jsTruthyStr (jget (langStep o lang j p) n) = true := by
  unfold langStep
  by_cases h1 : jsTruthyStr (jget j p.1) = true
  · simp [h1, h]
  · simp only [h1, Bool.false_eq_true, if_neg, if_false]
    by_cases h2 : (Translate o p.2 lang).1 ≠ ""
    · rw [if_pos h2]
      by_cases hn : n = p.1
      · subst hn; exact absurd h h1
      · rw [jget_jset_ne _ _ _ _ hn]; exact h
    · rw [if_neg h2]; exact h

theorem langSync_truthy_mono (o : String → String → Option String) (lang : String) :
    ∀ (proc : List (String × String)) (j : List (String × String)) (n : String),
    jsTruthyStr (jget j n) = true →
    jsTruthyStr (jget (langSync o lang proc j) n) = true := by
  intro proc
  induction proc with
  | nil => intro j n h; exact h
  | cons q rest ih =>
    intro j n h
    rw [langSync, List.foldl_cons]
    exact ih (langStep o lang j q) n (langStep_truthy_mono o lang j q n h)

theorem langStep_truthy {o : String → String → Option String} {lang : String}
    {j : List (String × String)} {p : String × String}
    (h : jsTruthyStr (jget j p.1) = true) : langStep o lang j p = j := by
  unfold langStep
  rw [if_pos h]

theorem langStep_fail {o : String → String → Option String} {lang : String}
    {j : List (String × String)} {p : String × String}
    (h : (Translate o p.2 lang).1 = "") : langStep o lang j p = j := by
  unfold langStep
  by_cases h1 : jsTruthyStr (jget j p.1) = true
  · rw [if_pos h1]
  · rw [if_neg h1, if_neg (by simpa using h)]

theorem langStep_after_sync (o : String → String → Option String) (lang : String)
    (proc : List (String × String)) (j : List (String × String)) (p : String × String)
    (hp : p ∈ proc) :
    langStep o lang (langSync o lang proc j) p = langSync o lang proc j := by
  induction proc generalizing j with
  | nil => cases hp
  | cons q rest ih =>
    rw [langSync, List.foldl_cons]
    rcases List.mem_cons.mp hp with heq | hmem
    · subst heq
      by_cases hT : jsTruthyStr (jget (langSync o lang rest (langStep o lang j p)) p.1) = true
      · exact langStep_truthy hT
      · have hstep : ¬ jsTruthyStr (jget (langStep o lang j p) p.1) = true := by
          intro hc
          exact hT (langSync_truthy_mono o lang rest (langStep o lang j p) p.1 hc)
        have ht : (Translate o p.2 lang).1 = "" := by
          by_contra hne
          apply hstep
          unfold langStep
          by_cases h1 : jsTruthyStr (jget j p.1) = true
          · rw [if_pos h1]; exact h1
          · rw [if_neg h1, if_pos (by simpa using hne), jget_jset_self]
            simpa [jsTruthyStr] using hne
        exact langStep_fail ht
    · exact ih (langStep o lang j q) hmem

theorem langSync_id_of_fixed (o : String → String → Option String) (lang : String)
    (proc : List (String × String)) (j : List (String × String))
    (h : ∀ p ∈ proc, langStep o lang j p = j) :
    langSync o lang proc j = j := by
  induction proc with
  | nil => rfl
  | cons q rest ih =>
    rw [langSync, List.foldl_cons, h q (List.mem_cons_self q rest)]
    exact ih (fun p hp => h p (List.mem_cons_of_mem q hp))

theorem langSync_idem (o : String → String → Option String) (lang : String)
    (proc : List (String × String)) (j : List (String × String)) :
    langSync o lang proc (langSync o lang proc j) = langSync o lang proc j :=
  langSync_id_of_fixed o lang proc (langSync o lang proc j)
    (fun p hp => langStep_after_sync o lang proc j p hp)

theorem tsEntryFor_fst (azure : Bool) (oracle : String → String → Option String)
    (language key : String) (fn : TemplateInfo) :
    (tsEntryFor azure oracle language key fn).1 = singleQuote key := rfl

theorem GenerateTS_covers (azure : Bool) (oracle : String → String → Option String)
    (language : String) (strings : List (String × TemplateInfo))
    (props : List (String × String)) :
    ∀ kv ∈ strings,
      (jget (GenerateTS azure oracle language strings props).1 (singleQuote kv.1)).isSome := by
  intro kv hkv
  unfold GenerateTS
  cases hp : jget props (singleQuote kv.1) with
  | some v =>
    rw [jget_append_left _ hp]
    rfl
  | none =>
    rw [jget_append_right _ hp]
    have hmem : tsEntryFor azure oracle language kv.1 kv.2 ∈
        strings.filterMap (fun kv =>
          if (jget props (singleQuote kv.1)).isSome then none
          else some (tsEntryFor azure oracle language kv.1 kv.2)) := by
      apply List.mem_filterMap.mpr
      exact ⟨kv, hkv, by rw [hp]; rfl⟩
    have : (singleQuote kv.1, (tsEntryFor azure oracle language kv.1 kv.2).2) ∈
        strings.filterMap (fun kv =>
          if (jget props (singleQuote kv.1)).isSome then none
          else some (tsEntryFor azure oracle language kv.1 kv.2)) := by
      simpa [tsEntryFor_fst] using hmem
    exact jget_isSome_of_mem this

theorem GenerateTS_second_run (azure : Bool) (oracle : String → String → Option String)
    (language : String) (strings : List (String × TemplateInfo))
    (props : List (String × String)) :
    (GenerateTS azure oracle language strings
      (GenerateTS azure oracle language strings props).1).2 = false := by
  have hcov := GenerateTS_covers azure oracle language strings props
  show (!(strings.filterMap fun kv =>
      if (jget (GenerateTS azure oracle language strings props).1 (singleQuote kv.1)).isSome
      then none
      else some (tsEntryFor azure oracle language kv.1 kv.2)).isEmpty) = false
  have hnil : (strings.filterMap fun kv =>
      if (jget (GenerateTS azure oracle language strings props).1 (singleQuote kv.1)).isSome
      then none
      else some (tsEntryFor azure oracle language kv.1 kv.2)) = [] := by
    apply List.filterMap_eq_nil_iff.mpr
    intro kv hkv
    rw [if_pos (hcov kv hkv)]
  rw [hnil]
  rfl

/-! ## Claim C2: idempotence / write-iff-changed -/

/-- C2: a catalog file is written iff its content changed during the run (for
the module strategy: iff at least one entry was appended), and running the
synchronization a second time against the unchanged source set and the
catalogs produced by the first run performs zero file writes, in both output
strategies. -/
theorem c2_sync_idempotent (azure : Bool) (o oracle : String → String → Option String)
    (language : String) (strings : List (String × TemplateInfo))
    (props : List (String × String)) (d : JsonDisk) :
    ((GenerateTS azure o language strings props).2 = true ↔
      (GenerateTS azure o language strings props).1 ≠ props) ∧
    (GenerateTS azure o language strings (GenerateTS azure o language strings props).1).2
      = false ∧
    ((GenerateJSON oracle strings (GenerateJSON oracle strings d).1).2.all
      (fun b => b = false)) = true := by
  refine ⟨?_, GenerateTS_second_run azure o language strings props, ?_⟩
  · unfold GenerateTS
    have key : ∀ adds : List (String × String), props ++ adds = props → adds = [] := by
      intro adds h
      have hl := congrArg List.length h
      simp only [List.length_append] at hl
      exact List.eq_nil_of_length_eq_zero (by omega)
    constructor
    · intro h heq
      rw [key _ heq] at h
      simp at h
    · intro hne
      by_cases hemp : (strings.filterMap fun kv =>
          if (jget props (singleQuote kv.1)).isSome then none
          else some (tsEntryFor azure o language kv.1 kv.2)) = []
      · rw [hemp] at hne
        simp at hne
      · simp [List.isEmpty_iff, hemp]
  · unfold GenerateJSON
    simp only [List.map_map, List.all_cons]
    rw [Bool.and_eq_true]
    refine ⟨by simp, ?_⟩
    rw [List.all_eq_true]
    intro b hb
    rcases List.mem_map.mp hb with ⟨p, hp, rfl⟩
    simp [Function.comp, langSync_idem]

/-! ## Claim C1 (amended): the merge only adds, except for the base document -/

theorem langStep_preserves {o : String → String → Option String} {lang : String}
    {j : List (String × String)} {p : String × String} {n v : String}
    (h : jget j n = some v) (hv : v ≠ "") :
    jget (langStep o lang j p) n = some v := by
  unfold langStep
  by_cases h1 : jsTruthyStr (jget j p.1) = true
  · rw [if_pos h1]; exact h
  · rw [if_neg h1]
    by_cases h2 : (Translate o p.2 lang).1 ≠ ""
    · rw [if_pos h2]
      by_cases hn : n = p.1
      · subst hn
        rw [h] at h1
        exact absurd (by simpa [jsTruthyStr] using hv) h1
      · rw [jget_jset_ne _ _ _ _ hn]; exact h
    · rw [if_neg h2]; exact h

/-- C1 (amended): in the module-catalog strategy an existing entry is never
modified (the merge only appends missing keys), and in a per-language
document an existing entry with a nonempty body is never modified; the *base*
document, however, is rebuilt from the current scan on every run, so its
entries can be rewritten when a source literal changes
(see `c1_base_overwrite_cx`). -/
theorem c1_merge_only_adds (azure : Bool) (o oracle : String → String → Option String)
    (language : String) (strings : List (String × TemplateInfo))
    (props : List (String × String)) (name b : String) :
    (jget props name = some b →
      jget (GenerateTS azure o language strings props).1 name = some b) ∧
    (∀ (proc j : List (String × String)) (n v : String),
      jget j n = some v → v ≠ "" →
      jget (langSync oracle language proc j) n = some v) := by
  constructor
  · intro h
    unfold GenerateTS
    exact jget_append_left _ h
  · intro proc
    induction proc with
    | nil => intro j n v h _; exact h
    | cons q rest ih =>
      intro j n v h hv
      rw [langSync, List.foldl_cons]
      exact ih (langStep oracle language j q) n v (langStep_preserves h hv) hv

/-- Witness for C1 (amended) at concrete inputs. -/
theorem c1_merge_only_adds_witness :
    jget (GenerateTS false (fun _ _ => none) "de"
      [("Hi there", ⟨"`Hi there`", [], [], ""⟩)] [("n", "b")]).1 "n" = some "b" ∧
    jget (langSync (fun _ _ => none) "de" [("x", "lit")] [("x", "y")]) "x" = some "y" := by
  have h := c1_merge_only_adds false (fun _ _ => none) (fun _ _ => none) "de"
    [("Hi there", ⟨"`Hi there`", [], [], ""⟩)] [("n", "b")] "n" "b"
  exact ⟨h.1 (by decide), h.2 [("x", "lit")] [("x", "y")] "x" "y" (by decide) (by decide)⟩

/-! ## Claim C5 (amended): fallback still requires the tag name `i` -/

/-- C5 (amended): when no function carries the `@translator` marker, the
scanner emits its warning and treats a tagged-template call site as
translatable iff its tag resolves to a function declaration named `i`
(in any file) — not every tagged-template call site. -/
theorem c5_fallback_requires_i (files : List FileModel)
    (h : findTranslator files = none) :
    scanWarns files = true ∧
    ∀ (isFnDecl : Bool) (declName : Option String) (fid : Nat),
      matchSite (findTranslator files) isFnDecl declName fid =
        (isFnDecl && (declName == some "i")) := by
  constructor
  · simp [scanWarns, h]
  · intro d n fid
    rw [h]
    rfl

/-- Witness for C5 (amended) at a concrete project with no marked function. -/
theorem c5_fallback_requires_i_witness :
    scanWarns [⟨0, [⟨"x", false⟩]⟩] = true ∧
    matchSite (findTranslator [⟨0, [⟨"x", false⟩]⟩]) true (some "i") 5 =
      (true && ((some "i" : Option String) == some "i")) :=
  ⟨(c5_fallback_requires_i [⟨0, [⟨"x", false⟩]⟩] (by decide)).1,
   (c5_fallback_requires_i [⟨0, [⟨"x", false⟩]⟩] (by decide)).2 true (some "i") 5⟩

/-! ## Claim C6 (amended): partial-failure behaviour -/

theorem Translate_congr {o₁ o₂ : String → String → Option String} {text language : String}
    (h : o₁ (protect text).1 language = o₂ (protect text).1 language) :
    Translate o₁ text language = Translate o₂ text language := by
  simp only [Translate]
  rw [h]

theorem langStep_congr {o₁ o₂ : String → String → Option String} {language : String}
    {j : List (String × String)} {p : String × String}
    (h : o₁ (protect p.2).1 language = o₂ (protect p.2).1 language) :
    langStep o₁ language j p = langStep o₂ language j p := by
  unfold langStep
  rw [Translate_congr h]

/-- C6 (amended): a Translation Provider failure for one (key, language) pair
is caught locally and leaves every other pair's outcome unaffected (each
entry's outcome depends only on the oracle's answer for that entry's
protected text); in the *module* strategy the failed entry still gets a
catalog body holding the untranslated text under a pending-translation (todo)
comment, while in the *document* strategy the failed entry is simply not
added to the language document (see `c6_json_drop_cx`). -/
theorem c6_partial_failure (o o₁ o₂ oracle : String → String → Option String)
    (language : String) (strings : List (String × TemplateInfo))
    (props : List (String × String)) :
    (∀ (key : String) (fn : TemplateInfo),
      o (protect (if (tsParams fn).length = 0 then singleQuote key else fn.literal)).1
          language = none →
      tsEntryFor true o language key fn =
        (singleQuote key,
         tsBody (tsParams fn)
           (todoComment (if (tsParams fn).length = 0 then singleQuote key else fn.literal))
           (if (tsParams fn).length = 0 then singleQuote key else fn.literal))) ∧
    (∀ (key : String) (fn : TemplateInfo), (key, fn) ∈ strings →
      jget props (singleQuote key) = none →
      (singleQuote key, (tsEntryFor true o language key fn).2) ∈
        (GenerateTS true o language strings props).1) ∧
    (∀ (j : List (String × String)) (n lit : String),
      (Translate oracle lit language).1 = "" →
      langStep oracle language j (n, lit) = j) ∧
    (∀ (proc j : List (String × String)),
      (∀ p ∈ proc, o₁ (protect p.2).1 language = o₂ (protect p.2).1 language) →
      langSync o₁ language proc j = langSync o₂ language proc j) ∧
    (∀ (azure : Bool) (key : String) (fn : TemplateInfo),
      o₁ (protect (if (tsParams fn).length = 0 then singleQuote key else fn.literal)).1
          language =
        o₂ (protect (if (tsParams fn).length = 0 then singleQuote key else fn.literal)).1
          language →
      tsEntryFor azure o₁ language key fn = tsEntryFor azure o₂ language key fn) := by
  refine ⟨?_, ?_, ?_, ?_, ?_⟩
  · intro key fn h
    simp only [List.length_eq_zero] at h
    simp [tsEntryFor, h]
  · intro key fn hmem hnone
    unfold GenerateTS
    apply List.mem_append.mpr
    right
    have : tsEntryFor true o language key fn ∈
        strings.filterMap (fun kv =>
          if (jget props (singleQuote kv.1)).isSome then none
          else some (tsEntryFor true o language kv.1 kv.2)) :=
      List.mem_filterMap.mpr ⟨(key, fn), hmem, by rw [hnone]; rfl⟩
    simpa [tsEntryFor_fst] using this
  · intro j n lit h
    exact langStep_fail h
  · intro proc
    induction proc with
    | nil => intro j _; rfl
    | cons q rest ih =>
      intro j h
      rw [langSync, List.foldl_cons, langSync, List.foldl_cons,
        langStep_congr (h q (List.mem_cons_self q rest))]
      exact ih (langStep o₂ language j q) (fun p hp => h p (List.mem_cons_of_mem q hp))
  · intro azure key fn h
    simp only [List.length_eq_zero] at h
    simp only [tsEntryFor, List.length_eq_zero]
    rw [h]

/-- Witness for C6 (amended) at concrete inputs. -/
theorem c6_partial_failure_witness :
    tsEntryFor true (fun _ _ => none) "de" "Hello" ⟨"`Hello`", [], [], ""⟩ =
      (singleQuote "Hello",
       tsBody [] (todoComment (singleQuote "Hello")) (singleQuote "Hello")) ∧
    langStep (fun _ _ => none) "de" [] ("Hello", "Hello") = [] ∧
    langSync (fun _ _ => some "Hallo") "de" [("Hello", "Hello")] [] =
      langSync (fun t _ => if t = (protect "Hello").1 then some "Hallo" else none)
        "de" [("Hello", "Hello")] [] := by
  have h := c6_partial_failure (fun _ _ => none) (fun _ _ => some "Hallo")
    (fun t _ => if t = (protect "Hello").1 then some "Hallo" else none)
    (fun _ _ => none) "de" [] []
  refine ⟨?_, h.2.2.1 [] "Hello" "Hello" (by decide), ?_⟩
  · have := h.1 "Hello" ⟨"`Hello`", [], [], ""⟩ (by decide)
    simpa using this
  · exact h.2.2.2.1 [("Hello", "Hello")] []
      (by intro p hp; rcases List.mem_singleton.mp hp with rfl; decide)

/-! ## Claim C7 (amended): dedup with Map.set note merging -/

theorem strEq_of_data {a b : String} (h : a.data = b.data) : a = b := by
  cases a
  cases b
  exact congrArg String.mk h

theorem jget_map_update {α : Type} {m : List (String × α)} {k : String} {old : α}
    (f : α → α) (h : jget m k = some old) :
    jget (m.map (fun p => if p.1 = k then (k, f p.2) else p)) k = some (f old) := by
  induction m with
  | nil => simp [jget] at h
  | cons p rest ih =>
    by_cases hp : p.1 = k
    · have : p.2 = old := by simpa [jget, hp] using h
      simp [jget, hp, this]
    · simp only [jget, hp, if_neg, if_false] at h
      simpa [jget, hp] using ih h

/-- C7 (amended): two call sites with literally identical canonical keys keep
a single Template Record — the first occurrence's literal, parameters and
specified key — and the later occurrence's notes are merged into it with
`Map.set` semantics: a later note *overwrites* an earlier note for the same
slot identifier (the value written by `jset` is the value read back). -/
theorem c7_dedup_merge (strings : List (String × TemplateInfo))
    (key literal : String) (notes : List (String × String))
    (params : List TemplateParam) (specifiedKey : String) (old : TemplateInfo)
    (h : jget strings (unquote key) = some old) :
    (track strings key literal notes params specifiedKey).length = strings.length ∧
    jget (track strings key literal notes params specifiedKey) (unquote key) =
      some ⟨old.literal, old.params,
        notes.foldl (fun m kv => jset m kv.1 kv.2) old.notes, old.specifiedKey⟩ ∧
    (∀ (m : List (String × String)) (slot v : String), jget (jset m slot v) slot = some v) := by
  refine ⟨?_, ?_, fun m slot v => jget_jset_self m slot v⟩
  · unfold track
    rw [h]
    simp
  · unfold track
    rw [h]
    exact jget_map_update
      (fun i => { i with notes := notes.foldl (fun m kv => jset m kv.1 kv.2) i.notes }) h

/-- Witness for C7 (amended) at concrete inputs. -/
theorem c7_dedup_merge_witness :
    (track [("k", ⟨"lit", [], [("full", "a")], ""⟩)] "k" "lit2" [("full", "b")] [] "x").length
      = 1 ∧
    jget (track [("k", ⟨"lit", [], [("full", "a")], ""⟩)] "k" "lit2" [("full", "b")] [] "x")
      (unquote "k") = some ⟨"lit", [], [("full", "b")], ""⟩ := by
  have h := c7_dedup_merge [("k", ⟨"lit", [], [("full", "a")], ""⟩)] "k" "lit2"
    [("full", "b")] [] "x" ⟨"lit", [], [("full", "a")], ""⟩ (by decide)
  refine ⟨h.1, ?_⟩
  rw [h.2.1]
  decide

/-! ## Claim C8 (amended): override recorded, never used -/

theorem takeWhile_append_sat {p : Char → Bool} {l1 l2 : List Char}
    (h1 : ∀ c ∈ l1, p c = true)
    (h2 : ∀ c, l2.head? = some c → p c = false) :
    (l1 ++ l2).takeWhile p = l1 ∧ (l1 ++ l2).dropWhile p = l2 := by
  induction l1 with
  | nil =>
    simp only [List.nil_append]
    cases l2 with
    | nil => simp
    | cons c rest =>
      have := h2 c rfl
      simp [List.takeWhile, List.dropWhile, this]
  | cons c rest ih =>
    have hc := h1 c (List.mem_cons_self c rest)
    have := ih (fun x hx => h1 x (List.mem_cons_of_mem c hx))
    simp [List.takeWhile, List.dropWhile, hc, this.1, this.2]

/-- C8 (amended): a trailing annotation beginning with an `@word` token does
record that token as the explicit-key override (`specifiedKey`), but neither
generation strategy ever consults it: the identity under which an entry
appears in the persisted catalogs is always the literal-derived canonical
key (see `c8_override_unused_cx`), and replacing every record's specified key
arbitrarily leaves the module-catalog output unchanged. -/
theorem c8_override_recorded_not_used :
    (∀ (w rest : String), w ≠ "" → (∀ c ∈ w.data, wordChar c = true) →
      (∀ c, rest.data.head? = some c → wordChar c = false) →
      (noteSplit ("@" ++ w ++ rest)).2 = some ("@" ++ w)) ∧
    (∀ (azure : Bool) (o : String → String → Option String) (language : String)
      (strings : List (String × TemplateInfo)) (props : List (String × String))
      (f : String → TemplateInfo → String),
      GenerateTS azure o language
        (strings.map (fun kv => (kv.1, ⟨kv.2.literal, kv.2.params, kv.2.notes, f kv.1 kv.2⟩)))
        props =
      GenerateTS azure o language strings props) := by
  constructor
  · intro w rest hw hall hhead
    have hdata : ("@" ++ w ++ rest).data = '@' :: (w.data ++ rest.data) := by
      rw [String.data_append, String.data_append]
      rfl
    have htw := takeWhile_append_sat hall hhead
    have hwdata : w.data ≠ [] := by
      intro hnil
      exact hw (strEq_of_data (by simp [hnil]))
    unfold noteSplit
    rw [hdata]
    simp only [htw.1, htw.2]
    rw [if_pos ⟨trivial, hwdata⟩]
    rfl
  · intro azure o language strings props f
    unfold GenerateTS
    rw [List.filterMap_map]
    have heq : ∀ kv ∈ strings,
        ((fun kv => if (jget props (singleQuote kv.1)).isSome then none
          else some (tsEntryFor azure o language kv.1 kv.2)) ∘
         (fun kv : String × TemplateInfo =>
           (kv.1, (⟨kv.2.literal, kv.2.params, kv.2.notes, f kv.1 kv.2⟩ : TemplateInfo)))) kv =
        (fun kv => if (jget props (singleQuote kv.1)).isSome then none
          else some (tsEntryFor azure o language kv.1 kv.2)) kv := by
      intro kv _
      rfl
    rw [List.filterMap_congr heq]

/-- Witness for C8 (amended): the split of `@foo bar` records `@foo`. -/
theorem c8_override_recorded_not_used_witness :
    (noteSplit ("@" ++ "foo" ++ " bar")).2 = some ("@" ++ "foo") :=
  c8_override_recorded_not_used.1 "foo" " bar" (by decide) (by decide)
    (by intro c hc; simp at hc; subst hc; decide)

/-! ## Claim C4: canonical key is a function of the literal skeleton -/

theorem scanGo_key (jm : Bool) (ct : String) (spans : List TemplateSpan) :
    ∀ (n : Nat) (key lit : String) (ps : List TemplateParam)
      (notes : List (String × String)),
    (scanGo jm ct spans n key lit ps notes).1 =
      key ++ ckAux n (spans.map TemplateSpan.tailText) := by
  induction spans with
  | nil => intro n key lit ps notes; simp [scanGo, ckAux]
  | cons sp rest ih =>
    intro n key lit ps notes
    cases hc : sp.content with
    | ident nm dt c =>
      simp only [scanGo, hc]
      rw [ih]
      simp [ckAux, String.append_assoc]
    | expr tx c =>
      simp only [scanGo, hc]
      rw [ih]
      simp [ckAux, String.append_assoc]

theorem scanTemplate_key (jm : Bool) (ct headText : String) (spans : List TemplateSpan)
    (notes0 : List (String × String)) :
    (scanTemplate jm ct headText spans notes0).1 =
      canonKey headText (spans.map TemplateSpan.tailText) :=
  scanGo_key jm ct spans 0 headText headText [] notes0

theorem ckAux_inj : ∀ (ts ts' : List String) (n : Nat),
    ts.map String.length = ts'.map String.length →
    ckAux n ts = ckAux n ts' → ts = ts' := by
  intro ts
  induction ts with
  | nil =>
    intro ts' n hlen _
    cases ts' with
    | nil => rfl
    | cons _ _ => simp at hlen
  | cons t r ih =>
    intro ts' n hlen heq
    cases ts' with
    | nil => simp at hlen
    | cons t' r' =>
      simp only [List.map_cons, List.cons.injEq] at hlen
      obtain ⟨hl, hr⟩ := hlen
      have hd := congrArg String.data heq
      simp only [ckAux, String.data_append, List.append_assoc] at hd
      have h1 := (List.append_inj hd rfl).2
      have h2 := List.append_inj h1 hl
      have ht : t = t' := strEq_of_data h2.1
      have hrest : r = r' := ih r' (n + 1) hr (strEq_of_data h2.2)
      rw [ht, hrest]

theorem canonKey_inj {headText headText' : String} {ts ts' : List String}
    (hlen : headText.length = headText'.length)
    (hlens : ts.map String.length = ts'.map String.length)
    (heq : canonKey headText ts = canonKey headText' ts') :
    headText = headText' ∧ ts = ts' := by
  have hd := congrArg String.data heq
  simp only [canonKey, String.data_append] at hd
  have h1 := List.append_inj hd hlen
  exact ⟨strEq_of_data h1.1, ckAux_inj ts ts' 0 hlens (strEq_of_data h1.2)⟩

/-- C4: the canonical key produced by the scanner is a pure function of the
literal skeleton (head text and the ordered tail chunks): any change of the
substituted expressions — including renaming identifiers, switching between
identifier and general expressions, the json renaming mode, the call type or
the notes — leaves the key unchanged, while changing any literal character of
the skeleton (same chunk lengths, different content) changes the key. -/
theorem c4_canonical_key_stability (jm jm' : Bool) (ct ct' : String)
    (notes0 notes0' : List (String × String)) (headText headText' : String)
    (spans spans' : List TemplateSpan) :
    ((spans.map TemplateSpan.tailText = spans'.map TemplateSpan.tailText) →
      headText = headText' →
      (scanTemplate jm ct headText spans notes0).1 =
        (scanTemplate jm' ct' headText' spans' notes0').1) ∧
    (headText.length = headText'.length →
      spans.map (fun s => s.tailText.length) = spans'.map (fun s => s.tailText.length) →
      (headText ≠ headText' ∨
        spans.map TemplateSpan.tailText ≠ spans'.map TemplateSpan.tailText) →
      (scanTemplate jm ct headText spans notes0).1 ≠
        (scanTemplate jm' ct' headText' spans' notes0').1) := by
  constructor
  · intro htails hh
    rw [scanTemplate_key, scanTemplate_key, htails, hh]
  · intro hlen hlens hne heq
    rw [scanTemplate_key, scanTemplate_key] at heq
    have hmapped : (spans.map TemplateSpan.tailText).map String.length =
        (spans'.map TemplateSpan.tailText).map String.length := by
      rw [List.map_map, List.map_map]
      exact hlens
    have := canonKey_inj hlen hmapped heq
    rcases hne with hne | hne
    · exact hne this.1
    · exact hne this.2

/-- Witness for C4 at concrete templates: renaming `count` to an arbitrary
expression keeps the key; changing one literal character changes it. -/
theorem c4_canonical_key_stability_witness :
    (scanTemplate false "T" "hd" [⟨.ident "count" none none, "x"⟩] []).1 =
      (scanTemplate true "U" "hd" [⟨.expr "a+b" none, "x"⟩] []).1 ∧
    (scanTemplate false "T" "aa" [⟨.ident "count" none none, "x"⟩] []).1 ≠
      (scanTemplate false "T" "ab" [⟨.ident "count" none none, "x"⟩] []).1 := by
  constructor
  · exact (c4_canonical_key_stability false true "T" "U" [] [] "hd" "hd"
      [⟨.ident "count" none none, "x"⟩] [⟨.expr "a+b" none, "x"⟩]).1 (by decide) rfl
  · exact (c4_canonical_key_stability false false "T" "T" [] [] "aa" "ab"
      [⟨.ident "count" none none, "x"⟩] [⟨.ident "count" none none, "x"⟩]).2
      (by decide) (by decide) (Or.inl (by decide))

/-! ## Claim C9 (amended): the concrete document-strategy example -/

/-- C9 (amended): scanning `` `Total: ${count}` `` (with `count` a resolvable
identifier of type `number`) in json mode yields canonical key
`Total: ${0}`, one positional parameter `p0 : number`, the document-safe
identifier `Total$`, and the base document maps `Total$` to
`Total: ${p0}`. -/
theorem c9_document_example :
    (scanTemplate true "string" "`Total: $\x7b"
      [⟨.ident "count" (some "number") none, "\x7d`"⟩] []).1 = "`Total: $\x7b0\x7d`" ∧
    (scanTemplate true "string" "`Total: $\x7b"
      [⟨.ident "count" (some "number") none, "\x7d`"⟩] []).2.2.1 =
        [⟨"p0", "number", ""⟩] ∧
    deriveName "Total: $\x7b0\x7d" = "Total$" ∧
    (baseProc (track []
        (scanTemplate true "string" "`Total: $\x7b"
          [⟨.ident "count" (some "number") none, "\x7d`"⟩] []).1
        (scanTemplate true "string" "`Total: $\x7b"
          [⟨.ident "count" (some "number") none, "\x7d`"⟩] []).2.1
        (scanTemplate true "string" "`Total: $\x7b"
          [⟨.ident "count" (some "number") none, "\x7d`"⟩] []).2.2.2
        (scanTemplate true "string" "`Total: $\x7b"
          [⟨.ident "count" (some "number") none, "\x7d`"⟩] []).2.2.1
        "")).1 = [("Total$", "Total: $\x7bp0\x7d")] := by decide

/-! ## Claim C3 (amended): round-trip exactness away from sentinel collisions

The amended statement quantifies over literals presented as an alternation of
literal chunks and `${...}` spans (which is exactly the shape the scanner
produces): chunks contain no `$` (so the spans are the spans `protect` finds)
and no `7` (so no spurious sentinel pattern arises), span bodies contain no
`}` and no newline (so the lazy regex closes each span where the literal
does), and there are at most 7 spans (so every sentinel ordinal is a single
digit distinct from `7`). -/

/-- The raw text of a `${...}` span with body `inner`. -/
def spanChars (inner : List Char) : List Char := '$' :: lbrace :: (inner ++ [rbrace])

/-- A literal assembled from (chunk, span body) pairs and a final chunk. -/
def asmSrc : List (List Char × List Char) → List Char → List Char
  | [], last => last
  | (c, inner) :: rest, last => c ++ spanChars inner ++ asmSrc rest last

/-- The protected form of such a literal: spans replaced by their numbered
sentinels. -/
def asmProt : Nat → List (List Char × List Char) → List Char → List Char
  | _, [], last => last
  | i, (c, _) :: rest, last => c ++ sentinelChars i ++ asmProt (i + 1) rest last

theorem findClose_inner {inner : List Char} (hrb : rbrace ∉ inner) (hnl : '\n' ∉ inner)
    (rest : List Char) :
    findClose (inner ++ rbrace :: rest) = some (inner, rest) := by
  induction inner with
  | nil => simp [findClose]
  | cons x xs ih =>
    have hx1 : x ≠ rbrace := fun h => hrb (h ▸ List.mem_cons_self x xs)
    have hx2 : x ≠ '\n' := fun h => hnl (h ▸ List.mem_cons_self x xs)
    have ih' := ih (fun h => hrb (List.mem_cons_of_mem x h))
      (fun h => hnl (List.mem_cons_of_mem x h))
    simp [findClose, hx1, hx2, ih']

theorem findSpan_span {inner : List Char} (hrb : rbrace ∉ inner) (hnl : '\n' ∉ inner)
    (rest : List Char) :
    findSpan (spanChars inner ++ rest) = some ([], spanChars inner, rest) := by
  show findSpan ('$' :: lbrace :: ((inner ++ [rbrace]) ++ rest)) = some ([], spanChars inner, rest)
  rw [List.append_assoc, List.singleton_append]
  simp [findSpan, findClose_inner hrb hnl rest, spanChars]

theorem findSpan_chunk {c : List Char} (hc : '$' ∉ c) (l : List Char) :
    findSpan (c ++ l) = (findSpan l).map (fun p => (c ++ p.1, p.2.1, p.2.2)) := by
  induction c with
  | nil =>
    cases h : findSpan l <;> simp [h]
  | cons x xs ih =>
    have hx : x ≠ '$' := fun h => hc (h ▸ List.mem_cons_self x xs)
    have ih' := ih (fun h => hc (List.mem_cons_of_mem x h))
    have hcond : ¬ (x = '$' ∧ (xs ++ l).head? = some lbrace) := fun hh => hx hh.1
    show findSpan (x :: (xs ++ l)) = _
    simp only [findSpan, if_neg hcond, ih']
    cases h : findSpan l <;> simp [h]

theorem findSpan_none {l : List Char} (hl : '$' ∉ l) : findSpan l = none := by
  induction l with
  | nil => rfl
  | cons x xs ih =>
    have hx : x ≠ '$' := fun h => hl (h ▸ List.mem_cons_self x xs)
    have ih' := ih (fun h => hl (List.mem_cons_of_mem x h))
    have hcond : ¬ (x = '$' ∧ xs.head? = some lbrace) := fun hh => hx hh.1
    simp only [findSpan, if_neg hcond, ih']
    rfl

theorem protF_asm : ∀ (ps : List (List Char × List Char)) (last : List Char) (i fuel : Nat),
    (∀ p ∈ ps, '$' ∉ p.1 ∧ rbrace ∉ p.2 ∧ '\n' ∉ p.2) →
    '$' ∉ last →
    (asmSrc ps last).length ≤ fuel →
    protF fuel (asmSrc ps last) i =
      (asmProt i ps last, ps.map (fun p => spanChars p.2)) := by
  intro ps
  induction ps with
  | nil =>
    intro last i fuel _ hlast _
    cases fuel with
    | zero => simp [asmSrc, asmProt, protF]
    | succ f => simp [asmSrc, asmProt, protF, findSpan_none hlast]
  | cons p rest ih =>
    intro last i fuel hps hlast hfuel
    obtain ⟨c, inner⟩ := p
    obtain ⟨hc, hrb, hnl⟩ := hps (c, inner) (List.mem_cons_self _ _)
    have hlen : (asmSrc ((c, inner) :: rest) last).length =
        c.length + (inner.length + 3) + (asmSrc rest last).length := by
      simp [asmSrc, spanChars]
      omega
    cases fuel with
    | zero => omega
    | succ f =>
      have hfs : findSpan (asmSrc ((c, inner) :: rest) last) =
          some (c, spanChars inner, asmSrc rest last) := by
        show findSpan (c ++ spanChars inner ++ asmSrc rest last) = _
        rw [List.append_assoc, findSpan_chunk hc, findSpan_span hrb hnl]
        simp
      simp only [protF, hfs]
      rw [ih last (i + 1) f (fun q hq => hps q (List.mem_cons_of_mem _ hq)) hlast (by omega)]
      simp [asmProt, List.append_assoc]

theorem findSent_sent {d : Char} (hd7 : d ≠ '7') (hdn : d ≠ '\n') (rest : List Char) :
    findSent ('7' :: '7' :: d :: '7' :: '7' :: rest) = some ([], [d], rest) := by
  have hcond : ¬ (d = '7' ∧ ('7' :: '7' :: rest).head? = some '7') := fun hh => hd7 hh.1
  simp [findSent, findClose77, hcond, hdn, hd7]

theorem findSent_chunk {c : List Char} (hc : '7' ∉ c) (l : List Char) :
    findSent (c ++ l) = (findSent l).map (fun p => (c ++ p.1, p.2.1, p.2.2)) := by
  induction c with
  | nil =>
    cases h : findSent l <;> simp [h]
  | cons x xs ih =>
    have hx : x ≠ '7' := fun h => hc (h ▸ List.mem_cons_self x xs)
    have ih' := ih (fun h => hc (List.mem_cons_of_mem x h))
    have hcond : ¬ (x = '7' ∧ (xs ++ l).head? = some '7') := fun hh => hx hh.1
    show findSent (x :: (xs ++ l)) = _
    simp only [findSent, if_neg hcond, ih']
    cases h : findSent l <;> simp [h]

theorem findSent_none {l : List Char} (hl : '7' ∉ l) : findSent l = none := by
  induction l with
  | nil => rfl
  | cons x xs ih =>
    have hx : x ≠ '7' := fun h => hl (h ▸ List.mem_cons_self x xs)
    have ih' := ih (fun h => hl (List.mem_cons_of_mem x h))
    have hcond : ¬ (x = '7' ∧ xs.head? = some '7') := fun hh => hx hh.1
    simp only [findSent, if_neg hcond, ih']
    rfl

theorem digit_facts (i : Nat) (h : i ≤ 6) :
    (Nat.repr i).data = [Char.ofNat (48 + i)] ∧
    Char.ofNat (48 + i) ≠ '7' ∧ Char.ofNat (48 + i) ≠ '\n' ∧
    parseIntJS [Char.ofNat (48 + i)] = some (Int.ofNat i) := by
  interval_cases i <;> refine ⟨by decide, by decide, by decide, by decide⟩

theorem repFor_digit {phs : List (List Char)} {i : Nat} {p : List Char}
    (hi : i ≤ 6) (hget : phs.get? i = some p) :
    repFor phs [Char.ofNat (48 + i)] = p := by
  unfold repFor
  rw [(digit_facts i hi).2.2.2]
  have hnn : ¬ (Int.ofNat i < 0) := Int.not_lt.2 (Int.ofNat_nonneg i)
  show (if (Int.ofNat i) < 0 then "undefined".data
    else match phs.get? (Int.ofNat i).toNat with
      | some q => q
      | none => "undefined".data) = p
  rw [if_neg hnn]
  show (match phs.get? i with
    | some q => q
    | none => "undefined".data) = p
  rw [hget]

theorem restF_asm : ∀ (ps : List (List Char × List Char)) (last : List Char)
    (i fuel : Nat) (phs : List (List Char)),
    (∀ p ∈ ps, '7' ∉ p.1) → '7' ∉ last →
    i + ps.length ≤ 7 →
    (∀ k (hk : k < ps.length), phs.get? (i + k) = some (spanChars (ps.get ⟨k, hk⟩).2)) →
    (asmProt i ps last).length ≤ fuel →
    restF fuel phs (asmProt i ps last) = asmSrc ps last := by
  intro ps
  induction ps with
  | nil =>
    intro last i fuel phs _ hlast _ _ _
    cases fuel with
    | zero => simp [asmProt, asmSrc, restF]
    | succ f => simp [asmProt, asmSrc, restF, findSent_none hlast]
  | cons p rest ih =>
    intro last i fuel phs hps hlast hle hget hfuel
    obtain ⟨c, inner⟩ := p
    have hc7 : '7' ∉ c := hps (c, inner) (List.mem_cons_self _ _)
    have hle' : i + rest.length + 1 ≤ 7 := by
      have := hle
      simp only [List.length_cons] at this
      omega
    have hi6 : i ≤ 6 := by omega
    obtain ⟨hrepr, hd7, hdn, _⟩ := digit_facts i hi6
    have hsent : sentinelChars i =
        '7' :: '7' :: Char.ofNat (48 + i) :: '7' :: '7' :: [] := by
      simp [sentinelChars, hrepr]
    have hlen : (asmProt i ((c, inner) :: rest) last).length =
        c.length + 5 + (asmProt (i + 1) rest last).length := by
      simp [asmProt, hsent]
      omega
    cases fuel with
    | zero => omega
    | succ f =>
      have hfs : findSent (asmProt i ((c, inner) :: rest) last) =
          some (c, [Char.ofNat (48 + i)], asmProt (i + 1) rest last) := by
        show findSent (c ++ sentinelChars i ++ asmProt (i + 1) rest last) = _
        rw [List.append_assoc, findSent_chunk hc7, hsent]
        rw [show ('7' :: '7' :: Char.ofNat (48 + i) :: '7' :: '7' :: []) ++
              asmProt (i + 1) rest last =
            '7' :: '7' :: Char.ofNat (48 + i) :: '7' :: '7' ::
              asmProt (i + 1) rest last from rfl]
        rw [findSent_sent hd7 hdn]
        simp
      have hget0 : phs.get? i = some (spanChars inner) := by
        have := hget 0 (by simp)
        simpa using this
      simp only [restF, hfs]
      rw [repFor_digit hi6 hget0]
      rw [ih last (i + 1) f phs (fun q hq => hps q (List.mem_cons_of_mem _ hq)) hlast
        (by omega)
        (fun k hk => by
          have hh := hget (k + 1) (by simpa using Nat.succ_lt_succ hk)
          rw [show i + (k + 1) = i + 1 + k from by omega] at hh
          simpa using hh)
        (by omega)]
      simp [asmSrc]

theorem map_data_mk (l : List (List Char)) : (l.map String.mk).map String.data = l := by
  induction l with
  | nil => rfl
  | cons x xs ih => simp only [List.map_cons, ih]

/-- C3 (amended): for every literal made of one to seven `${...}` spans
interleaved with literal chunks, where the chunks contain no `$` and no `7`
and the span bodies contain no `}` and no newline, the protect/restore round
trip with no intervening provider rewrite reproduces the literal exactly.
(Without the no-`7` restriction the sentinel pattern can arise spuriously and
the round trip corrupts the text — see `c3_roundtrip_cx`.) -/
theorem c3_roundtrip_amended (ps : List (List Char × List Char)) (last : List Char)
    (hok : ∀ p ∈ ps, '$' ∉ p.1 ∧ '7' ∉ p.1 ∧ rbrace ∉ p.2 ∧ '\n' ∉ p.2)
    (hlastD : '$' ∉ last) (hlast7 : '7' ∉ last)
    (hn : 1 ≤ ps.length) (hle : ps.length ≤ 7) :
    1 ≤ (protect (String.mk (asmSrc ps last))).2.length ∧
    restore (protect (String.mk (asmSrc ps last))).2
      (protect (String.mk (asmSrc ps last))).1 = String.mk (asmSrc ps last) := by
  have hprot := protF_asm ps last 0 (asmSrc ps last).length
    (fun p hp => ⟨(hok p hp).1, (hok p hp).2.2.1, (hok p hp).2.2.2⟩) hlastD (le_refl _)
  have hprotect : protect (String.mk (asmSrc ps last)) =
      (String.mk (asmProt 0 ps last),
       (ps.map (fun p => spanChars p.2)).map String.mk) := by
    unfold protect
    rw [show (String.mk (asmSrc ps last)).data = asmSrc ps last from rfl, hprot]
  constructor
  · rw [hprotect]
    simpa using hn
  · rw [hprotect]
    unfold restore
    rw [show (String.mk (asmProt 0 ps last)).data = asmProt 0 ps last from rfl]
    rw [map_data_mk]
    have hrest := restF_asm ps last 0 (asmProt 0 ps last).length
      (ps.map (fun p => spanChars p.2))
      (fun p hp => (hok p hp).2.1) hlast7 (by simpa using hle)
      (fun k hk => by
        rw [Nat.zero_add, List.get?_map, List.get?_eq_get hk]
        rfl)
      (le_refl _)
    rw [hrest]

/-- Witness for C3 (amended): the two-span literal `a${x}b${y}c` round-trips
exactly. -/
theorem c3_roundtrip_amended_witness :
    1 ≤ (protect (String.mk
      (asmSrc [("a".data, "x".data), ("b".data, "y".data)] "c".data))).2.length ∧
    restore (protect (String.mk
        (asmSrc [("a".data, "x".data), ("b".data, "y".data)] "c".data))).2
      (protect (String.mk
        (asmSrc [("a".data, "x".data), ("b".data, "y".data)] "c".data))).1 =
      String.mk (asmSrc [("a".data, "x".data), ("b".data, "y".data)] "c".data) :=
  c3_roundtrip_amended [("a".data, "x".data), ("b".data, "y".data)] "c".data
    (by decide) (by decide) (by decide) (by decide) (by decide)
